import Mathlib

/-
Verification of the authorization decision core of the pomerium repository
(src/authorize/grpc.go): request normalization from the two protocol
surfaces, the decision-to-response mapping in Check, and the login-redirect
URL construction.

Go strings are byte sequences; we model them as lists of bytes.  The parts
of the Go standard library that the source file uses (net/url Parse /
String / ResolveReference / query encoding, and net/http canonical header
keys) are modelled below from the Go 1.14 standard library sources, since
the repository calls into them and every claim about request normalization
depends on their behavior.
-/

set_option maxRecDepth 8192

namespace Pomerium

/-- A Go byte. -/
abbrev Byte := Fin 256

/-- A Go string: a sequence of bytes. -/
abbrev GoString := List Byte

/-- Build a byte from a numeric code. -/
def byteOf (n : Nat) : Byte := ⟨n % 256, by omega⟩

/-- Build a byte from a (Latin-1 range) character. -/
def chr (c : Char) : Byte := byteOf c.toNat

/-- Build a Go string from an ASCII Lean string literal. -/
def str (s : String) : GoString := s.data.map chr

/-- ASCII letter test, as in Go net/url shouldEscape. -/
def isAlphaByte (c : Byte) : Bool :=
  (97 ≤ c.val && c.val ≤ 122) || (65 ≤ c.val && c.val ≤ 90)

/-- ASCII digit test. -/
def isDigitByte (c : Byte) : Bool := 48 ≤ c.val && c.val ≤ 57

/-- Alphanumeric byte. -/
def isAlphaNumByte (c : Byte) : Bool := isAlphaByte c || isDigitByte c

/-- The encoding contexts of Go net/url (type `encoding`). -/
inductive Encoding where
  | path
  | pathSegment
  | host
  | zone
  | userPassword
  | queryComponent
  | fragment
deriving DecidableEq

/-- Bytes left unescaped in host/zone context by Go net/url shouldEscape:
the set `! $ & \x27 ( ) * + , ; = : [ ] < > \x22`. -/
def isHostModeSafe (c : Byte) : Bool :=
  c.val == 33 || c.val == 36 || c.val == 38 || c.val == 39 || c.val == 40 ||
  c.val == 41 || c.val == 42 || c.val == 43 || c.val == 44 || c.val == 59 ||
  c.val == 61 || c.val == 58 || c.val == 91 || c.val == 93 || c.val == 60 ||
  c.val == 62 || c.val == 34

/-- RFC 3986 reserved bytes as listed in Go net/url shouldEscape:
`$ & + , / : ; = ? @`. -/
def isReservedByte (c : Byte) : Bool :=
  c.val == 36 || c.val == 38 || c.val == 43 || c.val == 44 || c.val == 47 ||
  c.val == 58 || c.val == 59 || c.val == 61 || c.val == 63 || c.val == 64

/-- Go net/url shouldEscape. -/
def shouldEscape (c : Byte) (mode : Encoding) : Bool :=
  if isAlphaNumByte c then false
  else if (mode == .host || mode == .zone) && isHostModeSafe c then false
  -- unreserved marks - _ . ~
  else if c.val == 45 || c.val == 95 || c.val == 46 || c.val == 126 then false
  else if isReservedByte c then
    match mode with
    | .path => c.val == 63
    | .pathSegment => c.val == 47 || c.val == 59 || c.val == 44 || c.val == 63
    | .userPassword => c.val == 64 || c.val == 47 || c.val == 63 || c.val == 58
    | .queryComponent => true
    | .fragment => false
    | _ => true
  else if mode == .fragment && (c.val == 33 || c.val == 40 || c.val == 41 || c.val == 42) then false
  else true

/-- Upper-case hex digit of a value below 16 (Go net/url upperhex table). -/
def hexUpper (n : Nat) : Byte :=
  let m := n % 16
  if m < 10 then ⟨48 + m, by omega⟩ else ⟨55 + m, by omega⟩

/-- One byte of Go net/url escape: spaces become plus in query components,
escaped bytes become percent plus two upper-case hex digits. -/
def escapeByte (c : Byte) (mode : Encoding) : GoString :=
  if shouldEscape c mode then
    if c.val == 32 && mode == .queryComponent then [byteOf 43]
    else [byteOf 37, hexUpper (c.val / 16), hexUpper (c.val % 16)]
  else [c]

/-- Go net/url escape. -/
def escape : GoString → Encoding → GoString
  | [], _ => []
  | c :: rest, mode => escapeByte c mode ++ escape rest mode

/-- Go net/url ishex. -/
def ishex (c : Byte) : Bool :=
  (48 ≤ c.val && c.val ≤ 57) || (97 ≤ c.val && c.val ≤ 102) || (65 ≤ c.val && c.val ≤ 70)

/-- Go net/url unhex. -/
def unhex (c : Byte) : Nat :=
  if 48 ≤ c.val && c.val ≤ 57 then c.val - 48
  else if 97 ≤ c.val && c.val ≤ 102 then c.val - 97 + 10
  else if 65 ≤ c.val && c.val ≤ 70 then c.val - 65 + 10
  else 0

/-- Go net/url unescape (fused validation and build passes; `none` stands
for the non-nil error returns). -/
def unescape : GoString → Encoding → Option GoString
  | [], _ => some []
  | c :: rest, mode =>
    if c.val == 37 then
      -- percent escape
      match rest with
      | h1 :: h2 :: rest2 =>
        if ishex h1 && ishex h2 then
          -- RFC 3986: a host can only contain percent escapes of non-ASCII bytes
          if mode == .host && unhex h1 < 8 && !(h1.val == 50 && h2.val == 53) then none
          else if mode == .zone &&
              !(h1.val == 50 && h2.val == 53) &&
              !(unhex h1 * 16 + unhex h2 == 32) &&
              shouldEscape (byteOf (unhex h1 * 16 + unhex h2)) .host then none
          else (unescape rest2 mode).map (byteOf (unhex h1 * 16 + unhex h2) :: ·)
        else none
      | _ => none
    else if c.val == 43 then
      let b := if mode == .queryComponent then byteOf 32 else c
      (unescape rest mode).map (b :: ·)
    else
      if (mode == .host || mode == .zone) && c.val < 128 && shouldEscape c mode then none
      else (unescape rest mode).map (c :: ·)

/-- Go net/url QueryEscape. -/
def queryEscape (s : GoString) : GoString := escape s .queryComponent

/-- Go net/url QueryUnescape. -/
def queryUnescape (s : GoString) : Option GoString := unescape s .queryComponent

/-! ### Small Go string helpers (strings package) -/

/-- Does the string contain the byte (strings.IndexByte ≥ 0)? -/
def containsByte (s : GoString) (b : Byte) : Bool := s.any (· == b)

/-- strings.HasPrefix. -/
def hasPrefix (s pre : GoString) : Bool := pre.isPrefixOf s

/-- Index of the last occurrence of a byte (strings.LastIndex with a
one-byte separator), if any. -/
def lastIndexByte (s : GoString) (b : Byte) : Option Nat :=
  match s.reverse.findIdx? (· == b) with
  | none => none
  | some i => some (s.length - 1 - i)

/-- strings.Index for a substring: first position where `pat` occurs. -/
def indexOfSub (pat : GoString) : GoString → Nat → Option Nat
  | [], i => if pat.isEmpty then some i else none
  | s@(_ :: t), i => if pat.isPrefixOf s then some i else indexOfSub pat t (i + 1)

/-- Go net/url split: cut `s` at the first occurrence of `sep`; `cutc`
says whether the separator itself is dropped from the second half. -/
def splitByte (s : GoString) (sep : Byte) (cutc : Bool) : GoString × GoString :=
  match s.findIdx? (· == sep) with
  | none => (s, [])
  | some i => (s.take i, if cutc then s.drop (i + 1) else s.drop i)

/-- strings.Split generalized to a separator predicate, with an
accumulator for the current chunk. -/
def splitAllP (p : Byte → Bool) : GoString → GoString → List GoString
  | acc, [] => [acc]
  | acc, c :: rest => if p c then acc :: splitAllP p [] rest else splitAllP p (acc ++ [c]) rest

/-- strings.Join with a one-byte separator. -/
def joinSep (sep : Byte) : List GoString → GoString
  | [] => []
  | [x] => x
  | x :: xs => x ++ sep :: joinSep sep xs

/-- strings.TrimPrefix for the one-byte prefix slash. -/
def trimPrefixSlash (s : GoString) : GoString :=
  match s with
  | c :: rest => if c.val == 47 then rest else s
  | [] => []

/-- Go net/url stringContainsCTLByte. -/
def containsCTLByte (s : GoString) : Bool := s.any (fun c => c.val < 32 || c.val == 127)

/-- ASCII lower-casing of one byte (strings.ToLower restricted to the
ASCII range; URL schemes only contain ASCII letters/digits/+-. ). -/
def toLowerByte (c : Byte) : Byte :=
  if 65 ≤ c.val && c.val ≤ 90 then byteOf (c.val + 32) else c

/-- strings.ToLower on a byte string. -/
def toLowerStr (s : GoString) : GoString := s.map toLowerByte

/-! ### The URL data model (Go net/url URL) -/

/-- Go net/url Userinfo: a user name and an optional password. -/
structure Userinfo where
  username : GoString
  password : Option GoString
deriving DecidableEq

/-- Go net/url Userinfo.String: escaped user name, then a colon and the
escaped password when one was set. -/
def userinfoString (ui : Userinfo) : GoString :=
  escape ui.username .userPassword ++
    (match ui.password with
     | some pw => byteOf 58 :: escape pw .userPassword
     | none => [])

/-- Go net/url URL (Go 1.14 fields used by the repository). -/
structure URL where
  scheme : GoString := []
  -- the Opaque field of Go net/url URL
  opq : GoString := []
  user : Option Userinfo := none
  host : GoString := []
  path : GoString := []
  rawPath : GoString := []
  forceQuery : Bool := false
  rawQuery : GoString := []
  fragment : GoString := []
deriving DecidableEq

/-- Go net/url validEncoded. -/
def validEncoded (s : GoString) (mode : Encoding) : Bool :=
  s.all fun c =>
    -- bytes ! $ & \x27 ( ) * + , ; = : @ [ ] % are fine
    c.val == 33 || c.val == 36 || c.val == 38 || c.val == 39 || c.val == 40 ||
    c.val == 41 || c.val == 42 || c.val == 43 || c.val == 44 || c.val == 59 ||
    c.val == 61 || c.val == 58 || c.val == 64 || c.val == 91 || c.val == 93 ||
    c.val == 37 || !shouldEscape c mode

/-- Go net/url URL.EscapedPath. -/
def URL.escapedPath (u : URL) : GoString :=
  let useRaw :=
    !u.rawPath.isEmpty && validEncoded u.rawPath .path &&
      (match unescape u.rawPath .path with
       | some p => p == u.path
       | none => false)
  if useRaw then u.rawPath
  else if u.path == [byteOf 42] then [byteOf 42]
  else escape u.path .path

/-- Does a relative path need a leading dot-slash in URL.String (a colon
before any slash in its first segment)? -/
def needsDotSlash (p : GoString) : Bool :=
  match p.findIdx? (fun c => c.val == 58) with
  | some i => (p.take i).all (fun c => c.val != 47)
  | none => false

/-- Go net/url URL.String. -/
def URL.toString (u : URL) : GoString :=
  let buf0 := if u.scheme.isEmpty then [] else u.scheme ++ [byteOf 58]
  let buf1 :=
    if !u.opq.isEmpty then buf0 ++ u.opq
    else
      let b :=
        if !u.scheme.isEmpty || !u.host.isEmpty || u.user.isSome then
          let b :=
            if !u.host.isEmpty || !u.path.isEmpty || u.user.isSome then
              buf0 ++ [byteOf 47, byteOf 47]
            else buf0
          let b :=
            match u.user with
            | some ui => b ++ userinfoString ui ++ [byteOf 64]
            | none => b
          if !u.host.isEmpty then b ++ escape u.host .host else b
        else buf0
      let p := u.escapedPath
      let b :=
        if !p.isEmpty && !(p.head? == some (byteOf 47)) && !u.host.isEmpty then
          b ++ [byteOf 47]
        else b
      let b := if b.isEmpty && needsDotSlash p then b ++ [byteOf 46, byteOf 47] else b
      b ++ p
  let buf2 := if u.forceQuery || !u.rawQuery.isEmpty then buf1 ++ byteOf 63 :: u.rawQuery else buf1
  if u.fragment.isEmpty then buf2 else buf2 ++ byteOf 35 :: escape u.fragment .fragment

/-! ### Go net/url Parse -/

/-- Go net/url getScheme, scanning for a scheme prefix ended by a colon;
`acc` is the consumed prefix.  `none` means "no scheme found" (the getScheme
success with an empty scheme), `some (.error ())` is the missing-protocol-scheme
error, `some (.ok (scheme, rest))` a found scheme. -/
def getSchemeAux : GoString → GoString → Option (Except Unit (GoString × GoString))
  | _, [] => none
  | acc, c :: rest =>
    if isAlphaByte c then getSchemeAux (acc ++ [c]) rest
    else if isDigitByte c || c.val == 43 || c.val == 45 || c.val == 46 then
      if acc.isEmpty then none else getSchemeAux (acc ++ [c]) rest
    else if c.val == 58 then
      if acc.isEmpty then some (.error ()) else some (.ok (acc, rest))
    else none

/-- Go net/url getScheme. -/
def getScheme (rawURL : GoString) : Except Unit (GoString × GoString) :=
  match getSchemeAux [] rawURL with
  | none => .ok ([], rawURL)
  | some r => r

/-- Go net/url validOptionalPort. -/
def validOptionalPort (port : GoString) : Bool :=
  match port with
  | [] => true
  | c :: rest => c.val == 58 && rest.all (fun b => 48 ≤ b.val && b.val ≤ 57)

/-- Go net/url parseHost (Go 1.14). -/
def parseHost (host : GoString) : Option GoString :=
  if hasPrefix host [byteOf 91] then
    -- bracketed IPv6 address
    match lastIndexByte host (byteOf 93) with
    | none => none
    | some i =>
      if !validOptionalPort (host.drop (i + 1)) then none
      else
        match indexOfSub (str "%25") (host.take i) 0 with
        | some zone =>
          match unescape (host.take zone) .host,
              unescape ((host.take i).drop zone) .zone,
              unescape (host.drop i) .host with
          | some h1, some h2, some h3 => some (h1 ++ h2 ++ h3)
          | _, _, _ => none
        | none =>
          unescape host .host
  else
    match lastIndexByte host (byteOf 58) with
    | some i =>
      if !validOptionalPort (host.drop i) then none
      else unescape host .host
    | none => unescape host .host

/-- Go net/url validUserinfo. -/
def validUserinfo (s : GoString) : Bool :=
  s.all fun c =>
    isAlphaNumByte c ||
    -- bytes - . _ : ~ ! $ & \x27 ( ) * + , ; = % @
    c.val == 45 || c.val == 46 || c.val == 95 || c.val == 58 || c.val == 126 ||
    c.val == 33 || c.val == 36 || c.val == 38 || c.val == 39 || c.val == 40 ||
    c.val == 41 || c.val == 42 || c.val == 43 || c.val == 44 || c.val == 59 ||
    c.val == 61 || c.val == 37 || c.val == 64

/-- Go net/url parseAuthority. -/
def parseAuthority (authority : GoString) : Option (Option Userinfo × GoString) :=
  match lastIndexByte authority (byteOf 64) with
  | none =>
    match parseHost authority with
    | none => none
    | some host => some (none, host)
  | some i =>
    match parseHost (authority.drop (i + 1)) with
    | none => none
    | some host =>
      let userinfo := authority.take i
      if !validUserinfo userinfo then none
      else if !containsByte userinfo (byteOf 58) then
        match unescape userinfo .userPassword with
        | none => none
        | some username => some (some { username := username, password := none }, host)
      else
        let p := splitByte userinfo (byteOf 58) true
        match unescape p.1 .userPassword, unescape p.2 .userPassword with
        | some username, some password =>
          some (some { username := username, password := some password }, host)
        | _, _ => none

/-- Go net/url URL.setPath: records the unescaped path, keeping the raw
form only when it differs from the re-escaped one. -/
def setPath (u : URL) (p : GoString) : Option URL :=
  match unescape p .path with
  | none => none
  | some path =>
    if p == escape path .path then some { u with path := path, rawPath := [] }
    else some { u with path := path, rawPath := p }

/-- The tail of Go net/url parse shared by both branches: optional
authority, then the path. -/
def parseTail (scheme : GoString) (forceQuery : Bool) (rawQuery rest : GoString) :
    Option URL :=
  let u : URL := { scheme := scheme, forceQuery := forceQuery, rawQuery := rawQuery }
  if (!scheme.isEmpty || !hasPrefix rest (str "///")) && hasPrefix rest (str "//") then
    let p := splitByte (rest.drop 2) (byteOf 47) false
    match parseAuthority p.1 with
    | none => none
    | some (user, host) => setPath { u with user := user, host := host } p.2
  else setPath u rest

/-- Go net/url parse with viaRequest = false (Go 1.14). -/
def parseInner (rawURL : GoString) : Option URL :=
  if containsCTLByte rawURL then none
  else if rawURL == [byteOf 42] then some { path := [byteOf 42] }
  else
    match getScheme rawURL with
    | .error _ => none
    | .ok (scheme0, rest0) =>
      let scheme := toLowerStr scheme0
      let (rest, rawQuery, forceQuery) :=
        if rest0.getLast? == some (byteOf 63) && !containsByte rest0.dropLast (byteOf 63) then
          (rest0.dropLast, ([] : GoString), true)
        else
          let p := splitByte rest0 (byteOf 63) true
          (p.1, p.2, false)
      if !hasPrefix rest [byteOf 47] then
        if !scheme.isEmpty then
          -- a rootless path with a scheme is opaque
          some { scheme := scheme, opq := rest, forceQuery := forceQuery, rawQuery := rawQuery }
        else if containsByte (splitByte rest (byteOf 47) false).1 (byteOf 58) then
          -- first path segment in a relative URL cannot contain a colon
          none
        else parseTail scheme forceQuery rawQuery rest
      else parseTail scheme forceQuery rawQuery rest

/-- Go net/url Parse: splits off the fragment, parses the rest, then
unescapes the fragment. -/
def urlParse (rawURL : GoString) : Option URL :=
  let p := splitByte rawURL (byteOf 35) true
  match parseInner p.1 with
  | none => none
  | some u =>
    if p.2.isEmpty then some u
    else
      match unescape p.2 .fragment with
      | none => none
      | some frag => some { u with fragment := frag }

/-! ### Go net/url ResolveReference -/

/-- Go net/url resolvePath (Go 1.14): join the reference onto the base and
remove dot segments. -/
def resolvePath (base ref : GoString) : GoString :=
  let full :=
    if ref.isEmpty then base
    else if !(ref.head? == some (byteOf 47)) then
      (match lastIndexByte base (byteOf 47) with
       | none => []
       | some i => base.take (i + 1)) ++ ref
    else ref
  if full.isEmpty then []
  else
    let src := splitAllP (fun c => c.val == 47) [] full
    let dst := src.foldl
      (fun dst elem =>
        if elem == [byteOf 46] then dst
        else if elem == [byteOf 46, byteOf 46] then dst.dropLast
        else dst ++ [elem])
      []
    let dst :=
      match src.getLast? with
      | some last =>
        if last == [byteOf 46] || last == [byteOf 46, byteOf 46] then dst ++ [[]] else dst
      | none => dst
    byteOf 47 :: trimPrefixSlash (joinSep (byteOf 47) dst)

/-- Go net/url URL.ResolveReference (Go 1.14).  The setPath error is
ignored there, which leaves the path fields of the copy unchanged. -/
def URL.resolveReference (u ref : URL) : URL :=
  let url := if ref.scheme.isEmpty then { ref with scheme := u.scheme } else ref
  if !ref.scheme.isEmpty || !ref.host.isEmpty || ref.user.isSome then
    match setPath url (resolvePath ref.escapedPath []) with
    | some v => v
    | none => url
  else if !ref.opq.isEmpty then
    { url with user := none, host := [], path := [] }
  else
    let url :=
      if ref.path.isEmpty && ref.rawQuery.isEmpty then
        let url := { url with rawQuery := u.rawQuery }
        if ref.fragment.isEmpty then { url with fragment := u.fragment } else url
      else url
    let url := { url with host := u.host, user := u.user }
    match setPath url (resolvePath u.escapedPath ref.escapedPath) with
    | some v => v
    | none => url

/-! ### Go net/url Values, ParseQuery and Encode -/

/-- Go net/url Values: a map from strings to lists of strings, modelled as
an association list with distinct keys. -/
abbrev Values := List (GoString × List GoString)

/-- Map update `m[k] = vs` on the association-list model. -/
def valuesSet (m : Values) (k : GoString) (vs : List GoString) : Values :=
  if m.any (fun kv => kv.1 == k) then
    m.map (fun kv => if kv.1 == k then (k, vs) else kv)
  else m ++ [(k, vs)]

/-- Go `m[key] = append(m[key], value)` on the association-list model. -/
def valuesAdd (m : Values) (k v : GoString) : Values :=
  if m.any (fun kv => kv.1 == k) then
    m.map (fun kv => if kv.1 == k then (kv.1, kv.2 ++ [v]) else kv)
  else m ++ [(k, [v])]

/-- Go net/url parseQuery (1.14: chunks are separated by ampersands or
semicolons; empty chunks and chunks whose key or value fail to unescape
are skipped, as Query() discards the error). -/
def parseQuery (query : GoString) : Values :=
  (splitAllP (fun c => c.val == 38 || c.val == 59) [] query).foldl
    (fun m chunk =>
      if chunk.isEmpty then m
      else
        let (k, v) :=
          match chunk.findIdx? (fun c => c.val == 61) with
          | some i => (chunk.take i, chunk.drop (i + 1))
          | none => (chunk, ([] : GoString))
        match queryUnescape k, queryUnescape v with
        | some k, some v => valuesAdd m k v
        | _, _ => m)
    []

/-- Go net/url URL.Query: parse the raw query, dropping errors. -/
def URL.query (u : URL) : Values := parseQuery u.rawQuery

/-- Lexicographic byte-string order used by sort.Strings. -/
def strLe : GoString → GoString → Bool
  | [], _ => true
  | _ :: _, [] => false
  | x :: xs, y :: ys =>
    if x.val < y.val then true
    else if y.val < x.val then false
    else strLe xs ys

/-- Insertion into a key-sorted association list. -/
def insertSortedByKey (x : GoString × List GoString) :
    Values → Values
  | [] => [x]
  | y :: ys => if strLe x.1 y.1 then x :: y :: ys else y :: insertSortedByKey x ys

/-- sort.Strings over the keys of a Values map. -/
def sortByKey (m : Values) : Values := m.foldr insertSortedByKey []

/-- Go net/url Values.Encode: keys in sorted order, every value
query-escaped, pairs joined by ampersands. -/
def valuesEncode (m : Values) : GoString :=
  (sortByKey m).foldl
    (fun buf kv =>
      kv.2.foldl
        (fun buf w =>
          (if buf.isEmpty then buf else buf ++ [byteOf 38]) ++
            queryEscape kv.1 ++ byteOf 61 :: queryEscape w)
        buf)
    []

/-! ### net/http canonical header keys (net/textproto) -/

/-- net/textproto validHeaderFieldByte: HTTP token bytes
(alphanumerics and `! # $ % & \x27 * + - . ^ _ \x60 | ~`). -/
def validHeaderFieldByte (b : Byte) : Bool :=
  isAlphaNumByte b ||
  b.val == 33 || b.val == 35 || b.val == 36 || b.val == 37 || b.val == 38 ||
  b.val == 39 || b.val == 42 || b.val == 43 || b.val == 45 || b.val == 46 ||
  b.val == 94 || b.val == 95 || b.val == 96 || b.val == 124 || b.val == 126

/-- The case-rewriting loop of net/textproto canonicalMIMEHeaderKey:
upper-case a letter at the start and after each hyphen, lower-case the
other letters. -/
def canonicalizeBytes : Bool → GoString → GoString
  | _, [] => []
  | upper, c :: rest =>
    let c2 :=
      if upper && 97 ≤ c.val && c.val ≤ 122 then byteOf (c.val - 32)
      else if !upper && 65 ≤ c.val && c.val ≤ 90 then byteOf (c.val + 32)
      else c
    c2 :: canonicalizeBytes (c2.val == 45) rest

/-- net/http CanonicalHeaderKey: keys holding a byte that is not a valid
header-field byte are returned unchanged, the rest are canonical-cased. -/
def canonicalHeaderKey (s : GoString) : GoString :=
  if s.all validHeaderFieldByte then canonicalizeBytes true s else s

/-! ### The repository code: src/authorize/grpc.go -/

/-- Modelled from the spec: the closed session-error taxonomy of §3.  The
five sentinel error values ErrExpired, ErrIssuedInTheFuture, ErrMalformed,
ErrNoSessionFound and ErrNotValidYet live in internal/sessions, which is
not under src/; the spec fixes the classification as exactly those five
kinds plus Other(detail) for every other non-nil error, whose detail is
the error's message. -/
inductive SessionError where
  | expired
  | issuedInTheFuture
  | malformed
  | noSessionFound
  | notValidYet
  | other (msg : GoString)
deriving DecidableEq

/-- Modelled from the spec: urlutil.QueryRedirectURI, the redirect
query-parameter name, lives in internal/urlutil which is not under src/;
the spec only calls it "the redirect query-parameter name".  Its concrete
value is pomerium_redirect_uri; no claim depends on the exact bytes. -/
def queryRedirectURI : GoString := str "pomerium_redirect_uri"

/-- The envoy CheckRequest attributes.request.http message: the fields of
it that src/authorize/grpc.go reads. -/
structure HttpAttributes where
  scheme : GoString
  host : GoString
  path : GoString
  query : GoString
  method : GoString
  /-- the singular-value header map (map from string to string) -/
  headers : List (GoString × GoString)

/-- The envoy CheckRequest as consumed by Check: the http attributes and
the source address (already rendered to a string, as
in.GetAttributes().GetSource().GetAddress().String() is). -/
structure CheckRequest where
  http : HttpAttributes
  sourceAddress : GoString

/-- Exact-key lookup in the header map (Go map indexing). -/
def mapLookup (m : List (GoString × GoString)) (k : GoString) : Option GoString :=
  (m.find? (fun kv => kv.1 == k)).map (·.2)

/-- evaluator.Request, the canonical request handed to the policy
evaluator. -/
structure EvalRequest where
  user : GoString
  header : Values
  host : GoString
  method : GoString
  requestURI : GoString
  remoteAddr : GoString
  url : GoString
deriving DecidableEq

/-- authorize.IsAuthorizedReply: the only field Check inspects is Allow. -/
structure Reply where
  allow : Bool
deriving DecidableEq

/-- getFullURL from src/authorize/grpc.go, before rendering: parse the raw
URL (falling back to a URL whose path is the raw string when parsing
fails), then default the host from the request host and the scheme to
http. -/
def getFullURLU (rawurl host : GoString) : URL :=
  let u :=
    match urlParse rawurl with
    | some u => u
    | none => { path := rawurl }
  let u := if u.host.isEmpty then { u with host := host } else u
  if u.scheme.isEmpty then { u with scheme := str "http" } else u

/-- getFullURL from src/authorize/grpc.go: the rendered URL string. -/
def getFullURL (rawurl host : GoString) : GoString := (getFullURLU rawurl host).toString

/-- getCheckRequestHeaders from src/authorize/grpc.go: canonicalize every
header key and wrap each value in a one-element list.  Go iterates the
header map in unspecified order; this model iterates the association list
left to right, one of the realizable orders. -/
def getCheckRequestHeaders (req : CheckRequest) : Values :=
  req.http.headers.foldl
    (fun h kv => valuesSet h (canonicalHeaderKey kv.1) [kv.2]) []

/-- getCheckRequestURL from src/authorize/grpc.go: assemble the URL from
the discrete scheme/host/path/query attributes, then let the lowercase
x-forwarded-proto header override the scheme when present. -/
def getCheckRequestURL (req : CheckRequest) : URL :=
  let h := req.http
  let u : URL := { scheme := h.scheme, host := h.host, path := h.path, rawQuery := h.query }
  match mapLookup h.headers (str "x-forwarded-proto") with
  | some fwdProto => { u with scheme := fwdProto }
  | none => u

/-- The evaluator.Request that Check builds (lines 49-57 of
src/authorize/grpc.go). -/
def checkEvalRequest (sess : GoString) (inReq : CheckRequest) : EvalRequest :=
  let requestURL := getCheckRequestURL inReq
  { user := sess
    header := getCheckRequestHeaders inReq
    host := inReq.http.host
    method := inReq.http.method
    requestURI := requestURL.toString
    remoteAddr := inReq.sourceAddress
    url := requestURL.toString }

/-- The sign-in URL Check builds for the redirect response (lines 93-97 of
src/authorize/grpc.go): resolve /.pomerium/sign_in against the request
URL and store the request URL in the redirect query parameter. -/
def checkSigninURL (requestURL : URL) : URL :=
  let signinURL := requestURL.resolveReference { path := str "/.pomerium/sign_in" }
  let q := signinURL.query
  let q := valuesSet q queryRedirectURI [requestURL.toString]
  { signinURL with rawQuery := valuesEncode q }

/-- The http_response half of an envoy CheckResponse: either an (empty)
OkHttpResponse or a DeniedHttpResponse with an HTTP status code and a
header list. -/
inductive HttpResponseMsg where
  | okResponse
  | deniedResponse (status : Nat) (headers : List (GoString × GoString))
deriving DecidableEq

/-- An envoy CheckResponse: the google.rpc status (code and message) plus
the http_response. -/
structure CheckResponse where
  statusCode : Int
  statusMessage : GoString
  http : HttpResponseMsg
deriving DecidableEq

/-- The allow branch of Check: OK status and an empty OkHttpResponse. -/
def allowedResponse : CheckResponse :=
  { statusCode := 0, statusMessage := str "OK", http := .okResponse }

/-- The default branch of Check: PermissionDenied status carrying `msg`,
HTTP status 403 Forbidden, no headers. -/
def forbiddenResponse (msg : GoString) : CheckResponse :=
  { statusCode := 7, statusMessage := msg, http := .deniedResponse 403 [] }

/-- The redirect branch of Check: Unauthenticated status, HTTP status 302
Found, and a Location header. -/
def redirectResponse (location : GoString) : CheckResponse :=
  { statusCode := 16
    statusMessage := str "unauthenticated"
    http := .deniedResponse 302 [(str "Location", location)] }

/-- Check from src/authorize/grpc.go.  The two effectful collaborators are
parameters: `pe` is the policy evaluator (a.pe.IsAuthorized) and
`loadSession` the result of a.loadSessionFromCheckRequest (the session
token together with its error).  An evaluator error is returned as a call
failure; otherwise allow wins, then the five recoverable session errors
redirect to sign-in, and everything else (including no session error) is
forbidden with the error's message (empty when nil). -/
def Check (pe : EvalRequest → Except GoString Reply)
    (loadSession : GoString × Option SessionError)
    (inReq : CheckRequest) : Except GoString CheckResponse :=
  let sesserr := loadSession.2
  let requestURL := getCheckRequestURL inReq
  match pe (checkEvalRequest loadSession.1 inReq) with
  | .error e => .error e
  | .ok reply =>
    if reply.allow then .ok allowedResponse
    else
      match sesserr with
      | some .expired | some .issuedInTheFuture | some .malformed
      | some .noSessionFound | some .notValidYet =>
        -- redirect to login
        .ok (redirectResponse (checkSigninURL requestURL).toString)
      | some (.other msg) => .ok (forbiddenResponse msg)
      | none => .ok (forbiddenResponse [])

/-- authorize.IsAuthorizedRequest: the native-call request fields read by
IsAuthorized. -/
structure IsAuthorizedRequest where
  userToken : GoString
  requestHeaders : Values
  requestHost : GoString
  requestMethod : GoString
  requestRequestUri : GoString
  requestRemoteAddr : GoString
  requestUrl : GoString

/-- cloneHeaders from src/authorize/grpc.go: a deep copy of the header
map, which in this pure model is the identity on the entries. -/
def cloneHeaders (m : Values) : Values := m.map (fun kv => (kv.1, kv.2.map id))

/-- IsAuthorized from src/authorize/grpc.go: build the canonical request
and pass it to the evaluator. -/
def IsAuthorized (pe : EvalRequest → Except GoString Reply)
    (inReq : IsAuthorizedRequest) : Except GoString Reply :=
  pe
    { user := inReq.userToken
      header := cloneHeaders inReq.requestHeaders
      host := inReq.requestHost
      method := inReq.requestMethod
      requestURI := inReq.requestRequestUri
      remoteAddr := inReq.requestRemoteAddr
      url := getFullURL inReq.requestUrl inReq.requestHost }

/-! ### Outcome shapes (from the spec §4.5, for stating the claims) -/

/-- DeniedForbidden shape: PermissionDenied status, HTTP 403, stated from
the spec for comparison against the code's responses. -/
def DeniedForbiddenShape (r : CheckResponse) : Prop :=
  r.statusCode = 7 ∧ ∃ headers, r.http = .deniedResponse 403 headers

/-- DeniedUnauthenticatedRedirect shape: Unauthenticated status, HTTP 302
Found, and a Location header holding `loc`, stated from the spec. -/
def RedirectShape (r : CheckResponse) (loc : GoString) : Prop :=
  r.statusCode = 16 ∧ r.http = .deniedResponse 302 [(str "Location", loc)]

/-! ### Sample inputs for the witnesses -/

/-- A small concrete proxy-check request. -/
def reqA : CheckRequest :=
  { http :=
      { scheme := str "http", host := str "a.com", path := str "/x",
        query := [], method := str "GET", headers := [] }
    sourceAddress := str "1.2.3.4:1234" }

/-- A proxy-check request whose forwarded-protocol header uses canonical
casing rather than the lowercase wire key. -/
def reqB : CheckRequest :=
  { http :=
      { scheme := str "http", host := str "a.com", path := str "/x",
        query := [], method := str "GET",
        headers := [(str "X-Forwarded-Proto", str "https")] }
    sourceAddress := str "1.2.3.4:1234" }

/-- An evaluator that always allows. -/
def peAllow : EvalRequest → Except GoString Reply := fun _ => .ok { allow := true }

/-- An evaluator that always denies. -/
def peDeny : EvalRequest → Except GoString Reply := fun _ => .ok { allow := false }

/-- An evaluator that always fails with an internal error. -/
def peFail : EvalRequest → Except GoString Reply := fun _ => .error (str "pe broke")

/-- A proxy-check request carrying two distinct header keys that
canonicalize to the same canonical key. -/
def reqC : CheckRequest :=
  { http :=
      { scheme := str "http", host := str "a.com", path := str "/x",
        query := [], method := str "GET",
        headers := [(str "x-foo", str "bar"), (str "X-Foo", str "baz")] }
    sourceAddress := str "1.2.3.4:1234" }

/-- A proxy-check request with a single x-foo header. -/
def reqD : CheckRequest :=
  { http :=
      { scheme := str "http", host := str "a.com", path := str "/x",
        query := [], method := str "GET",
        headers := [(str "x-foo", str "bar")] }
    sourceAddress := str "1.2.3.4:1234" }

/-! ### Helper lemmas -/

/-- A list with a nonempty left part is nonempty. -/
theorem append_ne_nil_left {a : GoString} (b : GoString) (ha : a ≠ []) : a ++ b ≠ [] := by
  intro hc
  exact ha (List.append_eq_nil.mp hc).1

/-- After getFullURL's defaulting, the scheme is never empty. -/
theorem getFullURLU_scheme_ne (rawurl host : GoString) : (getFullURLU rawurl host).scheme ≠ [] := by
  rcases h : urlParse rawurl with _ | u
  all_goals simp only [getFullURLU, h]
  all_goals repeat' split
  all_goals simp_all [List.isEmpty_iff, str, chr, byteOf]

/-- After getFullURL's defaulting, the host is nonempty whenever the
request host is. -/
theorem getFullURLU_host_ne (rawurl host : GoString) (hh : host ≠ []) :
    (getFullURLU rawurl host).host ≠ [] := by
  rcases h : urlParse rawurl with _ | u
  all_goals simp only [getFullURLU, h]
  all_goals repeat' split
  all_goals simp_all [List.isEmpty_iff]

/-- URL.toString of a URL with a nonempty scheme is nonempty: the buffer
starts with the scheme and a colon and only grows. -/
theorem toString_ne_nil (u : URL) (h : u.scheme ≠ []) : u.toString ≠ [] := by
  have h0 : u.scheme.isEmpty = false := by simpa [List.isEmpty_iff] using h
  unfold URL.toString
  lift_lets
  extract_lets buf0 b1 b2 b3 p b4 b5 buf1 buf2
  have hbuf0 : buf0 ≠ [] := by
    unfold buf0
    simp [h0]
  have hb1 : b1 ≠ [] := by
    unfold b1
    split
    exacts [append_ne_nil_left _ hbuf0, hbuf0]
  have hb2 : b2 ≠ [] := by
    unfold b2
    cases u.user with
    | some ui => exact append_ne_nil_left _ (append_ne_nil_left _ hb1)
    | none => exact hb1
  have hb3 : b3 ≠ [] := by
    unfold b3
    split
    · split
      exacts [append_ne_nil_left _ hb2, hb2]
    · exact hbuf0
  have hb4 : b4 ≠ [] := by
    unfold b4
    split
    exacts [append_ne_nil_left _ hb3, hb3]
  have hb5 : b5 ≠ [] := by
    unfold b5
    split
    exacts [append_ne_nil_left _ hb4, hb4]
  have hbuf1 : buf1 ≠ [] := by
    unfold buf1
    split
    exacts [append_ne_nil_left _ hbuf0, append_ne_nil_left _ hb5]
  have hbuf2 : buf2 ≠ [] := by
    unfold buf2
    split
    exacts [append_ne_nil_left _ hbuf1, hbuf1]
  split
  exacts [hbuf2, append_ne_nil_left _ hbuf2]

/-- In a map with distinct keys, find? on a member key returns that
entry. -/
theorem find?_eq_of_mem_nodup {m : List (GoString × GoString)} {k : GoString} {v : GoString}
    (hnd : (m.map Prod.fst).Nodup) (hm : (k, v) ∈ m) :
    m.find? (fun kv => kv.1 == k) = some (k, v) := by
  induction m with
  | nil => cases hm
  | cons hd tl ih =>
    rcases List.mem_cons.mp hm with h | h
    · subst h; simp [List.find?]
    · have hk : k ∈ tl.map Prod.fst := List.mem_map_of_mem Prod.fst h
      have hne : hd.1 ≠ k := by
        intro he
        exact (List.nodup_cons.mp hnd).1 (he ▸ hk)
      have := ih (List.nodup_cons.mp hnd).2 h
      simp only [List.find?]
      rw [show (hd.1 == k) = false from beq_eq_false_iff_ne.mpr hne]
      exact this


theorem hexUpper_eq (n : Nat) :
    hexUpper n = if n % 16 < 10 then (⟨48 + n % 16, by omega⟩ : Byte)
      else ⟨55 + n % 16, by omega⟩ := rfl

theorem hexUpper_spec (n : Nat) :
    (48 ≤ (hexUpper n).val ∧ (hexUpper n).val ≤ 57) ∨
    (65 ≤ (hexUpper n).val ∧ (hexUpper n).val ≤ 70) := by
  rw [hexUpper_eq]
  split <;> simp <;> omega

theorem ishex_hexUpper (n : Nat) : ishex (hexUpper n) = true := by
  rw [hexUpper_eq]
  unfold ishex
  split <;> simp <;> omega

theorem unhex_hexUpper (n : Nat) (h : n < 16) : unhex (hexUpper n) = n := by
  rw [hexUpper_eq]
  split <;> (unfold unhex; repeat' split) <;> simp_all <;> omega

theorem byteOf_val_eq (b : Byte) : byteOf b.val = b := by
  unfold byteOf
  exact Fin.ext (Nat.mod_eq_of_lt b.isLt)

theorem query_plain_byte : ∀ b : Byte, shouldEscape b .queryComponent = false →
    b.val ≠ 37 ∧ b.val ≠ 43 ∧ b.val ≠ 38 ∧ b.val ≠ 59 ∧ b.val ≠ 61 := by
  decide

theorem unescape_cons_plain (c : Byte) (rest : GoString)
    (h37 : c.val ≠ 37) (h43 : c.val ≠ 43) :
    unescape (c :: rest) .queryComponent =
      (unescape rest .queryComponent).map (c :: ·) := by
  conv_lhs => unfold unescape
  simp [h37, h43]

theorem unescape_cons_plus (rest : GoString) :
    unescape (byteOf 43 :: rest) .queryComponent =
      (unescape rest .queryComponent).map (byteOf 32 :: ·) := by
  have hv : (byteOf 43).val = 43 := rfl
  conv_lhs => unfold unescape
  simp [hv]

theorem unescape_cons_pct (h1 h2 : Byte) (rest : GoString)
    (hh1 : ishex h1 = true) (hh2 : ishex h2 = true) :
    unescape (byteOf 37 :: h1 :: h2 :: rest) .queryComponent =
      (unescape rest .queryComponent).map (byteOf (unhex h1 * 16 + unhex h2) :: ·) := by
  have hv : (byteOf 37).val = 37 := rfl
  conv_lhs => unfold unescape
  simp [hv, hh1, hh2]

theorem unescape_escapeByte (b : Byte) (t : GoString) :
    unescape (escapeByte b .queryComponent ++ t) .queryComponent =
    (unescape t .queryComponent).map (b :: ·) := by
  by_cases hesc : shouldEscape b .queryComponent
  · by_cases hsp : b.val = 32
    · have he : escapeByte b .queryComponent = [byteOf 43] := by
        unfold escapeByte
        simp [hesc, hsp]
      have hb : byteOf 32 = b := by
        have := byteOf_val_eq b
        rw [hsp] at this
        exact this
      rw [he, List.cons_append, List.nil_append, unescape_cons_plus, hb]
    · have he : escapeByte b .queryComponent =
          [byteOf 37, hexUpper (b.val / 16), hexUpper (b.val % 16)] := by
        unfold escapeByte
        simp [hesc, hsp]
      have hd : b.val / 16 < 16 := by omega
      have hm : b.val % 16 < 16 := by omega
      rw [he]
      show unescape (byteOf 37 :: hexUpper (b.val / 16) :: hexUpper (b.val % 16) :: t)
          .queryComponent = _
      rw [unescape_cons_pct _ _ _ (ishex_hexUpper _) (ishex_hexUpper _),
        unhex_hexUpper _ hd, unhex_hexUpper _ hm,
        show byteOf (Fin.val b / 16 * 16 + Fin.val b % 16) = b from Fin.ext (by
          show (Fin.val b / 16 * 16 + Fin.val b % 16) % 256 = Fin.val b
          omega)]
  · have he : escapeByte b .queryComponent = [b] := by
      unfold escapeByte
      simp [hesc]
    obtain ⟨h37, h43, _, _, _⟩ := query_plain_byte b (by simpa using hesc)
    rw [he, List.cons_append, List.nil_append, unescape_cons_plain _ _ h37 h43]

theorem unescape_escape_append (s t : GoString) :
    unescape (escape s .queryComponent ++ t) .queryComponent =
    (unescape t .queryComponent).map (s ++ ·) := by
  induction s with
  | nil =>
    simp only [escape, List.nil_append]
    cases unescape t .queryComponent <;> simp
  | cons b rest ih =>
    rw [show escape (b :: rest) .queryComponent =
        escapeByte b .queryComponent ++ escape rest .queryComponent from rfl,
      List.append_assoc, unescape_escapeByte, ih]
    cases unescape t .queryComponent <;> simp

theorem queryUnescape_queryEscape (s : GoString) :
    queryUnescape (queryEscape s) = some s := by
  have h := unescape_escape_append s []
  simpa [queryUnescape, queryEscape, unescape] using h

theorem escapeByte_no_sep (b : Byte) :
    ∀ c ∈ escapeByte b .queryComponent, c.val ≠ 38 ∧ c.val ≠ 59 ∧ c.val ≠ 61 := by
  intro c hc
  by_cases hesc : shouldEscape b .queryComponent
  · by_cases hsp : b.val = 32
    · rw [show escapeByte b .queryComponent = [byteOf 43] from by
        unfold escapeByte; simp [hesc, hsp]] at hc
      simp at hc
      subst hc
      refine ⟨by decide, by decide, by decide⟩
    · rw [show escapeByte b .queryComponent =
          [byteOf 37, hexUpper (b.val / 16), hexUpper (b.val % 16)] from by
        unfold escapeByte; simp [hesc, hsp]] at hc
      simp at hc
      rcases hc with h | h | h
      · subst h; exact ⟨by decide, by decide, by decide⟩
      · subst h
        rcases hexUpper_spec (b.val / 16) with ⟨h1, h2⟩ | ⟨h1, h2⟩ <;>
          exact ⟨by omega, by omega, by omega⟩
      · subst h
        rcases hexUpper_spec (b.val % 16) with ⟨h1, h2⟩ | ⟨h1, h2⟩ <;>
          exact ⟨by omega, by omega, by omega⟩
  · rw [show escapeByte b .queryComponent = [b] from by unfold escapeByte; simp [hesc]] at hc
    obtain ⟨_, _, h1, h2, h3⟩ := query_plain_byte b (by simpa using hesc)
    simp at hc
    subst hc
    exact ⟨h1, h2, h3⟩

theorem queryEscape_no_sep (s : GoString) :
    ∀ c ∈ queryEscape s, c.val ≠ 38 ∧ c.val ≠ 59 ∧ c.val ≠ 61 := by
  induction s with
  | nil => intro c hc; simp [queryEscape, escape] at hc
  | cons b rest ih =>
    intro c hc
    rcases List.mem_append.mp (by simpa [queryEscape, escape] using hc) with h | h
    · exact escapeByte_no_sep b c h
    · exact ih c h

theorem splitAllP_no_sep (p : Byte → Bool) (s : GoString) :
    ∀ acc, (∀ c ∈ s, p c = false) → splitAllP p acc s = [acc ++ s] := by
  induction s with
  | nil => intro acc h; simp [splitAllP]
  | cons c rest ih =>
    intro acc h
    have hc : p c = false := h c (List.mem_cons_self _ _)
    rw [show splitAllP p acc (c :: rest) =
        if p c then acc :: splitAllP p [] rest else splitAllP p (acc ++ [c]) rest from rfl,
      hc]
    simp only [Bool.false_eq_true, if_false]
    rw [ih (acc ++ [c]) (fun d hd => h d (List.mem_cons_of_mem _ hd))]
    simp

theorem findIdx?_first_eq (pred : Byte → Bool) (a : GoString) (x : Byte) (b : GoString)
    (ha : ∀ c ∈ a, pred c = false) (hx : pred x = true) :
    (a ++ x :: b).findIdx? pred = some a.length := by
  induction a with
  | nil => simp [List.findIdx?_cons, hx]
  | cons c rest ih =>
    have hc : pred c = false := ha c (List.mem_cons_self _ _)
    simp [List.findIdx?_cons, hc,
      ih (fun d hd => ha d (List.mem_cons_of_mem _ hd))]

theorem parseQuery_single (k v : GoString) :
    parseQuery (queryEscape k ++ byteOf 61 :: queryEscape v) = [(k, [v])] := by
  unfold parseQuery
  have hnosep : ∀ c ∈ queryEscape k ++ byteOf 61 :: queryEscape v,
      (fun c : Byte => c.val == 38 || c.val == 59) c = false := by
    intro c hc
    rcases List.mem_append.mp hc with h | h
    · obtain ⟨h38, h59, _⟩ := queryEscape_no_sep k c h
      simp [h38, h59]
    · rcases List.mem_cons.mp h with he | h
      · subst he; decide
      · obtain ⟨h38, h59, _⟩ := queryEscape_no_sep v c h
        simp [h38, h59]
  rw [splitAllP_no_sep _ _ [] hnosep]
  simp only [List.nil_append, List.foldl]
  have hne : (queryEscape k ++ byteOf 61 :: queryEscape v).isEmpty = false := by
    rw [List.isEmpty_eq_false_iff_exists_mem]
    exact ⟨byteOf 61, by simp⟩
  rw [hne]
  simp only [Bool.false_eq_true, if_false]
  have hf : (queryEscape k ++ byteOf 61 :: queryEscape v).findIdx?
      (fun c => c.val == 61) = some (queryEscape k).length := by
    apply findIdx?_first_eq
    · intro c hc
      obtain ⟨_, _, h61⟩ := queryEscape_no_sep k c hc
      simp [h61]
    · decide
  rw [hf]
  have ht : (queryEscape k ++ byteOf 61 :: queryEscape v).take (queryEscape k).length =
      queryEscape k := List.take_left _ _
  have hd : (queryEscape k ++ byteOf 61 :: queryEscape v).drop
      ((queryEscape k).length + 1) = queryEscape v := by
    rw [show queryEscape k ++ byteOf 61 :: queryEscape v =
        (queryEscape k ++ [byteOf 61]) ++ queryEscape v by simp,
      show (queryEscape k).length + 1 = (queryEscape k ++ [byteOf 61]).length by simp]
    exact List.drop_left _ _
  simp only [ht, hd, queryUnescape_queryEscape]
  simp [valuesAdd]

theorem resolvePath_signin (base : GoString) :
    resolvePath base (str "/.pomerium/sign_in") = str "/.pomerium/sign_in" := by
  have h1 : (str "/.pomerium/sign_in").isEmpty = false := by decide
  have h2 : ((str "/.pomerium/sign_in").head? == some (byteOf 47)) = true := by decide
  unfold resolvePath
  lift_lets
  extract_lets full src dst dst2
  have hfull : full = str "/.pomerium/sign_in" := by
    unfold full
    simp [h1, h2]
  have hdst2 : dst2 = [([] : GoString), str ".pomerium", str "sign_in"] := by
    unfold dst2 dst src
    rw [hfull]
    decide
  rw [hfull, hdst2]
  decide

theorem valuesEncode_single (k v : GoString) :
    valuesEncode [(k, [v])] = queryEscape k ++ byteOf 61 :: queryEscape v := by
  simp [valuesEncode, sortByKey, insertSortedByKey, List.foldl]

theorem setPath_signin (w : URL) :
    setPath w (str "/.pomerium/sign_in") =
      some { w with path := str "/.pomerium/sign_in", rawPath := [] } := by
  unfold setPath
  have hu : unescape (str "/.pomerium/sign_in") .path = some (str "/.pomerium/sign_in") := by
    decide
  rw [hu]
  have he : (str "/.pomerium/sign_in" == escape (str "/.pomerium/sign_in") .path) = true := by
    decide
  simp [he]

theorem resolveReference_signin (u : URL) :
    u.resolveReference { path := str "/.pomerium/sign_in" } =
      { scheme := u.scheme, user := u.user, host := u.host,
        path := str "/.pomerium/sign_in" } := by
  have hep : URL.escapedPath ⟨[], [], none, [], str "/.pomerium/sign_in", [], false, [], []⟩ =
      str "/.pomerium/sign_in" := by decide
  have hpe : (str "/.pomerium/sign_in").isEmpty = false := by decide
  unfold URL.resolveReference
  simp [hep, hpe, resolvePath_signin, setPath_signin]

theorem checkSigninURL_fields (u : URL) :
    checkSigninURL u =
      { scheme := u.scheme, user := u.user, host := u.host,
        path := str "/.pomerium/sign_in",
        rawQuery := queryEscape queryRedirectURI ++ byteOf 61 :: queryEscape u.toString } := by
  unfold checkSigninURL
  rw [resolveReference_signin]
  simp [URL.query, parseQuery, splitAllP, valuesSet, valuesEncode_single]


/-! ### The claims -/

/-- C2: for every proxy-check call where the evaluator returns allow=true,
Check produces the Allowed outcome (OK status, empty ok-response body)
regardless of the session error value, including unrecoverable ones. -/
theorem check_allow_always_allowed
    (pe : EvalRequest → Except GoString Reply) (sess : GoString)
    (sesserr : Option SessionError) (inReq : CheckRequest) (reply : Reply)
    (hpe : pe (checkEvalRequest sess inReq) = .ok reply)
    (hallow : reply.allow = true) :
    Check pe (sess, sesserr) inReq = .ok allowedResponse ∧
    allowedResponse.statusCode = 0 ∧ allowedResponse.http = .okResponse := by
  refine ⟨?_, rfl, rfl⟩
  simp [Check, hpe, hallow]

/-- C2 witness: a deny-worthy unrecoverable session error, yet allow=true
yields the Allowed outcome. -/
theorem check_allow_always_allowed_witness :
    peAllow (checkEvalRequest [] reqA) = .ok { allow := true } ∧
    Reply.allow { allow := true } = true ∧
    (Check peAllow ([], some (.other (str "boom"))) reqA = .ok allowedResponse ∧
      allowedResponse.statusCode = 0 ∧ allowedResponse.http = .okResponse) :=
  ⟨rfl, rfl, check_allow_always_allowed peAllow [] (some (.other (str "boom"))) reqA
    { allow := true } rfl rfl⟩

/-- C3: for every proxy-check call where the evaluator returns allow=false
and the session error is nil, Check produces DeniedForbidden with an
empty message: PermissionDenied code, empty message, HTTP 403, and no
headers (hence no Location header). -/
theorem check_deny_nil_session_error_forbidden
    (pe : EvalRequest → Except GoString Reply) (sess : GoString)
    (inReq : CheckRequest) (reply : Reply)
    (hpe : pe (checkEvalRequest sess inReq) = .ok reply)
    (hallow : reply.allow = false) :
    Check pe (sess, none) inReq = .ok (forbiddenResponse []) ∧
    (forbiddenResponse []).statusCode = 7 ∧
    (forbiddenResponse []).statusMessage = [] ∧
    (forbiddenResponse []).http = .deniedResponse 403 [] := by
  refine ⟨?_, rfl, rfl, rfl⟩
  simp [Check, hpe, hallow]

/-- C3 witness. -/
theorem check_deny_nil_session_error_forbidden_witness :
    peDeny (checkEvalRequest [] reqA) = .ok { allow := false } ∧
    Reply.allow { allow := false } = false ∧
    (Check peDeny ([], none) reqA = .ok (forbiddenResponse []) ∧
      (forbiddenResponse []).statusCode = 7 ∧
      (forbiddenResponse []).statusMessage = [] ∧
      (forbiddenResponse []).http = .deniedResponse 403 []) :=
  ⟨rfl, rfl, check_deny_nil_session_error_forbidden peDeny [] reqA { allow := false } rfl rfl⟩

set_option maxHeartbeats 1000000 in
/-- C1: for every proxy-check call where the evaluator denies and the
session error is one of the five recoverable kinds, Check produces the
DeniedUnauthenticatedRedirect outcome - Unauthenticated status, HTTP 302
Found, Location header set to the sign-in URL - and never the
DeniedForbidden outcome.  The last conjunct shows the spec's concrete
scenario: for an expired session on http://a.com/x the Location is
http://a.com/.pomerium/sign_in?pomerium_redirect_uri=http%3A%2F%2Fa.com%2Fx. -/
theorem check_recoverable_deny_redirects
    (pe : EvalRequest → Except GoString Reply) (sess : GoString)
    (e : SessionError) (inReq : CheckRequest) (reply : Reply)
    (hrec : e = .expired ∨ e = .issuedInTheFuture ∨ e = .malformed ∨
      e = .noSessionFound ∨ e = .notValidYet)
    (hpe : pe (checkEvalRequest sess inReq) = .ok reply)
    (hallow : reply.allow = false) :
    Check pe (sess, some e) inReq =
      .ok (redirectResponse (checkSigninURL (getCheckRequestURL inReq)).toString) ∧
    RedirectShape (redirectResponse (checkSigninURL (getCheckRequestURL inReq)).toString)
      ((checkSigninURL (getCheckRequestURL inReq)).toString) ∧
    (∀ r : CheckResponse, Check pe (sess, some e) inReq = .ok r →
      ¬ DeniedForbiddenShape r) ∧
    Check peDeny ([], some .expired) reqA =
      .ok (redirectResponse
        (str "http://a.com/.pomerium/sign_in?pomerium_redirect_uri=http%3A%2F%2Fa.com%2Fx")) := by
  have hmain : Check pe (sess, some e) inReq =
      .ok (redirectResponse (checkSigninURL (getCheckRequestURL inReq)).toString) := by
    rcases hrec with h | h | h | h | h <;> subst h <;> simp [Check, hpe, hallow]
  refine ⟨hmain, ⟨rfl, rfl⟩, ?_, by rfl⟩
  intro r hr hforb
  rw [hmain] at hr
  have : redirectResponse (checkSigninURL (getCheckRequestURL inReq)).toString = r :=
    by injection hr
  rw [← this] at hforb
  rcases hforb with ⟨h7, _⟩
  simp [redirectResponse] at h7

/-- C1 witness: the expired session error with a denying evaluator. -/
theorem check_recoverable_deny_redirects_witness :
    (SessionError.expired = .expired ∨ SessionError.expired = .issuedInTheFuture ∨
      SessionError.expired = .malformed ∨ SessionError.expired = .noSessionFound ∨
      SessionError.expired = .notValidYet) ∧
    peDeny (checkEvalRequest [] reqA) = .ok { allow := false } ∧
    (Check peDeny ([], some .expired) reqA =
        .ok (redirectResponse (checkSigninURL (getCheckRequestURL reqA)).toString) ∧
      RedirectShape (redirectResponse (checkSigninURL (getCheckRequestURL reqA)).toString)
        ((checkSigninURL (getCheckRequestURL reqA)).toString) ∧
      (∀ r : CheckResponse, Check peDeny ([], some .expired) reqA = .ok r →
        ¬ DeniedForbiddenShape r) ∧
      Check peDeny ([], some .expired) reqA =
        .ok (redirectResponse
          (str "http://a.com/.pomerium/sign_in?pomerium_redirect_uri=http%3A%2F%2Fa.com%2Fx"))) :=
  ⟨Or.inl rfl, rfl,
    check_recoverable_deny_redirects peDeny [] .expired reqA { allow := false }
      (Or.inl rfl) rfl rfl⟩

/-- C4 counterexample: when the evaluator fails with an internal error,
Check surfaces it as a transport-level call failure, not as a
DeniedForbidden-shaped CheckResponse. -/
theorem check_evaluator_error_is_call_failure :
    Check peFail ([], none) reqA = .error (str "pe broke") ∧
    ∀ r : CheckResponse, Check peFail ([], none) reqA ≠ .ok r := by
  refine ⟨rfl, ?_⟩
  intro r h
  simp [Check, peFail] at h

/-- C4 amended: whenever the evaluator succeeds, Check returns a
well-formed CheckResponse - session-verification errors never become
transport-level failures - and an unrecoverable (internal) session error
combined with allow=false yields the DeniedForbidden shape with status
PermissionDenied carrying the error message. -/
theorem check_session_errors_never_call_failure
    (pe : EvalRequest → Except GoString Reply) (sess : GoString)
    (sesserr : Option SessionError) (inReq : CheckRequest) (reply : Reply)
    (hpe : pe (checkEvalRequest sess inReq) = .ok reply) :
    (∃ r : CheckResponse, Check pe (sess, sesserr) inReq = .ok r) ∧
    (∀ msg : GoString, reply.allow = false → sesserr = some (.other msg) →
      Check pe (sess, sesserr) inReq = .ok (forbiddenResponse msg) ∧
      DeniedForbiddenShape (forbiddenResponse msg)) := by
  constructor
  · cases hA : reply.allow
    · cases sesserr with
      | none => exact ⟨forbiddenResponse [], by simp [Check, hpe, hA]⟩
      | some e =>
        cases e with
        | expired =>
          exact ⟨redirectResponse (checkSigninURL (getCheckRequestURL inReq)).toString,
            by simp [Check, hpe, hA]⟩
        | issuedInTheFuture =>
          exact ⟨redirectResponse (checkSigninURL (getCheckRequestURL inReq)).toString,
            by simp [Check, hpe, hA]⟩
        | malformed =>
          exact ⟨redirectResponse (checkSigninURL (getCheckRequestURL inReq)).toString,
            by simp [Check, hpe, hA]⟩
        | noSessionFound =>
          exact ⟨redirectResponse (checkSigninURL (getCheckRequestURL inReq)).toString,
            by simp [Check, hpe, hA]⟩
        | notValidYet =>
          exact ⟨redirectResponse (checkSigninURL (getCheckRequestURL inReq)).toString,
            by simp [Check, hpe, hA]⟩
        | other msg => exact ⟨forbiddenResponse msg, by simp [Check, hpe, hA]⟩
    · exact ⟨allowedResponse, by simp [Check, hpe, hA]⟩
  · intro msg hA hS
    subst hS
    exact ⟨by simp [Check, hpe, hA], rfl, [], rfl⟩

/-- C4 amended witness: an internal session error with a denying
evaluator. -/
theorem check_session_errors_never_call_failure_witness :
    peDeny (checkEvalRequest [] reqA) = .ok { allow := false } ∧
    ((∃ r : CheckResponse,
        Check peDeny ([], some (.other (str "bad key"))) reqA = .ok r) ∧
      (∀ msg : GoString, Reply.allow { allow := false } = false →
        (some (.other (str "bad key")) : Option SessionError) = some (.other msg) →
        Check peDeny ([], some (.other (str "bad key"))) reqA = .ok (forbiddenResponse msg) ∧
        DeniedForbiddenShape (forbiddenResponse msg))) :=
  ⟨rfl, check_session_errors_never_call_failure peDeny [] (some (.other (str "bad key")))
    reqA { allow := false } rfl⟩

/-- C7: a proxy-check call with scheme=http in the path attributes and a
lowercase x-forwarded-proto header carrying https gets canonical URL
scheme https - the forwarded-protocol header overrides the attribute
scheme unconditionally. -/
theorem forwarded_proto_overrides_scheme
    (inReq : CheckRequest)
    (hnd : (inReq.http.headers.map Prod.fst).Nodup)
    (hmem : (str "x-forwarded-proto", str "https") ∈ inReq.http.headers)
    (hscheme : inReq.http.scheme = str "http") :
    (getCheckRequestURL inReq).scheme = str "https" := by
  have h := find?_eq_of_mem_nodup hnd hmem
  simp [getCheckRequestURL, mapLookup, h]

/-- C7 witness. -/
theorem forwarded_proto_overrides_scheme_witness :
    (let inReq : CheckRequest :=
      { http :=
          { scheme := str "http", host := str "a.com", path := str "/x",
            query := [], method := str "GET",
            headers := [(str "x-forwarded-proto", str "https")] }
        sourceAddress := [] }
     (inReq.http.headers.map Prod.fst).Nodup ∧
     (str "x-forwarded-proto", str "https") ∈ inReq.http.headers ∧
     inReq.http.scheme = str "http" ∧
     (getCheckRequestURL inReq).scheme = str "https") :=
  ⟨by decide, by decide, rfl,
    forwarded_proto_overrides_scheme _ (by decide) (by decide) rfl⟩

/-- C10: the forwarded-protocol override keys on the exact lowercase
header name; a map carrying the header under any other casing only (such
as X-Forwarded-Proto) leaves the attribute scheme unchanged. -/
theorem forwarded_proto_needs_lowercase_key
    (inReq : CheckRequest)
    (habsent : ∀ kv ∈ inReq.http.headers, kv.1 ≠ str "x-forwarded-proto") :
    (getCheckRequestURL inReq).scheme = inReq.http.scheme := by
  have h : mapLookup inReq.http.headers (str "x-forwarded-proto") = none := by
    have : inReq.http.headers.find? (fun kv => kv.1 == str "x-forwarded-proto") = none := by
      rw [List.find?_eq_none]
      intro kv hkv
      simpa using habsent kv hkv
    simp [mapLookup, this]
  simp [getCheckRequestURL, h]

/-- C10 witness: the header present only under canonical casing does not
override the scheme. -/
theorem forwarded_proto_needs_lowercase_key_witness :
    (∀ kv ∈ reqB.http.headers, kv.1 ≠ str "x-forwarded-proto") ∧
    (getCheckRequestURL reqB).scheme = reqB.http.scheme ∧
    (getCheckRequestURL reqB).scheme = str "http" :=
  ⟨by decide, forwarded_proto_needs_lowercase_key reqB (by decide), by decide⟩

/-- C6 counterexample: with an empty request host and a host-less raw URL
the normalized URL has an empty host, so "url always has a scheme and
host populated" fails for the empty host string. -/
theorem getFullURL_empty_host_counterexample :
    (getFullURLU (str "/foo") []).host = [] ∧
    getFullURL (str "/foo") [] = str "http:///foo" := by
  decide

/-- C6 amended: the canonical native-call URL always has a scheme
populated (defaulting to http), and its host is populated whenever the
request host field is nonempty (the raw URL's own host, when present,
wins); the spec's scenario holds: raw URL /foo?x=1 with host a.com
normalizes to http://a.com/foo?x=1. -/
theorem getFullURL_scheme_host_defaulted (rawurl host : GoString) (hh : host ≠ []) :
    (getFullURLU rawurl host).scheme ≠ [] ∧
    (getFullURLU rawurl host).host ≠ [] ∧
    getFullURL (str "/foo?x=1") (str "a.com") = str "http://a.com/foo?x=1" :=
  ⟨getFullURLU_scheme_ne rawurl host, getFullURLU_host_ne rawurl host hh, by decide⟩

/-- C6 amended witness. -/
theorem getFullURL_scheme_host_defaulted_witness :
    str "a.com" ≠ ([] : GoString) ∧
    ((getFullURLU (str "/foo") (str "a.com")).scheme ≠ [] ∧
      (getFullURLU (str "/foo") (str "a.com")).host ≠ [] ∧
      getFullURL (str "/foo?x=1") (str "a.com") = str "http://a.com/foo?x=1") :=
  ⟨by decide, getFullURL_scheme_host_defaulted (str "/foo") (str "a.com") (by decide)⟩

/-- Setting a key in the Values map leaves an entry with that key and
value in the map. -/
theorem mem_valuesSet_self (m : Values) (k : GoString) (vs : List GoString) :
    (k, vs) ∈ valuesSet m k vs := by
  unfold valuesSet
  split
  · next h =>
    obtain ⟨kv, hkv, hbeq⟩ := List.any_eq_true.mp h
    refine List.mem_map.mpr ⟨kv, hkv, ?_⟩
    simp [hbeq]
  · simp

/-- Setting a different key preserves an entry. -/
theorem mem_valuesSet_of_ne (m : Values) (k : GoString) (vs : List GoString)
    (k' : GoString) (vs' : List GoString) (hne : k ≠ k') (hm : (k, vs) ∈ m) :
    (k, vs) ∈ valuesSet m k' vs' := by
  unfold valuesSet
  split
  · refine List.mem_map.mpr ⟨(k, vs), hm, ?_⟩
    simp [beq_eq_false_iff_ne.mpr hne]
  · exact List.mem_append_left _ hm

/-- The canonical header map built by folding valuesSet contains the
entry (K, [w]) when some header key canonicalizes to K and every header
key canonicalizing to K carries the value w. -/
theorem headers_fold_mem (l : List (GoString × GoString)) (acc : Values)
    (K w : GoString)
    (hall : ∀ kv ∈ l, canonicalHeaderKey kv.1 = K → kv.2 = w)
    (hstart : (∃ kv ∈ l, canonicalHeaderKey kv.1 = K) ∨ (K, [w]) ∈ acc) :
    (K, [w]) ∈ l.foldl (fun h kv => valuesSet h (canonicalHeaderKey kv.1) [kv.2]) acc := by
  induction l generalizing acc with
  | nil =>
    rcases hstart with ⟨kv, hkv, _⟩ | h
    · cases hkv
    · exact h
  | cons hd tl ih =>
    simp only [List.foldl]
    by_cases hK : canonicalHeaderKey hd.1 = K
    · have hw : hd.2 = w := hall hd (List.mem_cons_self hd tl) hK
      apply ih
      · intro kv hkv hc
        exact hall kv (List.mem_cons_of_mem hd hkv) hc
      · right
        rw [hK, hw]
        exact mem_valuesSet_self _ _ _
    · apply ih
      · intro kv hkv hc
        exact hall kv (List.mem_cons_of_mem hd hkv) hc
      · rcases hstart with ⟨kv, hkv, hc⟩ | hacc
        · rcases List.mem_cons.mp hkv with he | hkv
          · exact absurd (he ▸ hc) hK
          · exact Or.inl ⟨kv, hkv, hc⟩
        · exact Or.inr (mem_valuesSet_of_ne _ _ _ _ _ (fun he => hK he.symm) hacc)

/-- C8 counterexample: two distinct Go-map keys (x-foo and X-Foo)
canonicalize to the same canonical key, and the later one clobbers the
earlier, so the canonical map binds X-Foo to baz, not bar, even though
the raw map contains the entry x-foo with value bar. -/
theorem header_canonicalization_clobber_counterexample :
    (str "x-foo", str "bar") ∈ reqC.http.headers ∧
    (str "X-Foo", [str "baz"]) ∈ getCheckRequestHeaders reqC ∧
    ¬ (str "X-Foo", [str "bar"]) ∈ getCheckRequestHeaders reqC := by
  decide

/-- C8 amended: when the raw header map contains the entry x-foo with
value bar and every key canonicalizing to X-Foo carries the value bar
(in particular when x-foo is the only such key), the canonical map
produced by getCheckRequestHeaders contains X-Foo bound to the
one-element sequence holding bar. -/
theorem header_canonicalization (inReq : CheckRequest)
    (hmem : (str "x-foo", str "bar") ∈ inReq.http.headers)
    (huniq : ∀ kv ∈ inReq.http.headers,
      canonicalHeaderKey kv.1 = str "X-Foo" → kv.2 = str "bar") :
    (str "X-Foo", [str "bar"]) ∈ getCheckRequestHeaders inReq := by
  unfold getCheckRequestHeaders
  apply headers_fold_mem _ _ _ _ huniq
  exact Or.inl ⟨(str "x-foo", str "bar"), hmem, by decide⟩

/-- C8 amended witness: a raw map with only the x-foo key. -/
theorem header_canonicalization_witness :
    (str "x-foo", str "bar") ∈ reqD.http.headers ∧
    (∀ kv ∈ reqD.http.headers,
      canonicalHeaderKey kv.1 = str "X-Foo" → kv.2 = str "bar") ∧
    (str "X-Foo", [str "bar"]) ∈ getCheckRequestHeaders reqD :=
  ⟨by decide, by decide, header_canonicalization reqD (by decide) (by decide)⟩

/-- C9: native-path URL normalization is total - getFullURL always
returns a nonempty URL string - and a malformed raw URL (here an invalid
percent escape, which url.Parse rejects) falls back to a URL whose path
is the raw string and whose host is the request host example.com. -/
theorem getFullURL_total_fallback (rawurl host : GoString) :
    getFullURL rawurl host ≠ [] ∧
    urlParse (str "/foo%zz") = none ∧
    getFullURL (str "/foo%zz") (str "example.com") = str "http://example.com/foo%25zz" ∧
    (getFullURLU (str "/foo%zz") (str "example.com")).host = str "example.com" ∧
    (getFullURLU (str "/foo%zz") (str "example.com")).path = str "/foo%zz" :=
  ⟨toString_ne_nil _ (getFullURLU_scheme_ne rawurl host), by decide, by decide, by decide,
    by decide⟩

/-- C5: every redirect outcome's sign-in URL keeps the original request
URL's scheme and host, and decoding its redirect query parameter (with
the same ParseQuery the code uses for queries) returns the original
request URL string byte-for-byte. -/
theorem check_redirect_preserves_url
    (pe : EvalRequest → Except GoString Reply) (sess : GoString)
    (e : SessionError) (inReq : CheckRequest) (reply : Reply)
    (hrec : e = .expired ∨ e = .issuedInTheFuture ∨ e = .malformed ∨
      e = .noSessionFound ∨ e = .notValidYet)
    (hpe : pe (checkEvalRequest sess inReq) = .ok reply)
    (hallow : reply.allow = false) :
    Check pe (sess, some e) inReq =
      .ok (redirectResponse (checkSigninURL (getCheckRequestURL inReq)).toString) ∧
    (checkSigninURL (getCheckRequestURL inReq)).scheme = (getCheckRequestURL inReq).scheme ∧
    (checkSigninURL (getCheckRequestURL inReq)).host = (getCheckRequestURL inReq).host ∧
    parseQuery (checkSigninURL (getCheckRequestURL inReq)).rawQuery =
      [(queryRedirectURI, [(getCheckRequestURL inReq).toString])] := by
  refine ⟨?_, ?_, ?_, ?_⟩
  · rcases hrec with h | h | h | h | h <;> subst h <;> simp [Check, hpe, hallow]
  · rw [checkSigninURL_fields]
  · rw [checkSigninURL_fields]
  · rw [checkSigninURL_fields]
    exact parseQuery_single _ _

/-- C5 witness. -/
theorem check_redirect_preserves_url_witness :
    (SessionError.expired = .expired ∨ SessionError.expired = .issuedInTheFuture ∨
      SessionError.expired = .malformed ∨ SessionError.expired = .noSessionFound ∨
      SessionError.expired = .notValidYet) ∧
    peDeny (checkEvalRequest [] reqA) = .ok { allow := false } ∧
    (Check peDeny ([], some .expired) reqA =
        .ok (redirectResponse (checkSigninURL (getCheckRequestURL reqA)).toString) ∧
      (checkSigninURL (getCheckRequestURL reqA)).scheme = (getCheckRequestURL reqA).scheme ∧
      (checkSigninURL (getCheckRequestURL reqA)).host = (getCheckRequestURL reqA).host ∧
      parseQuery (checkSigninURL (getCheckRequestURL reqA)).rawQuery =
        [(queryRedirectURI, [(getCheckRequestURL reqA).toString])]) :=
  ⟨Or.inl rfl, rfl,
    check_redirect_preserves_url peDeny [] .expired reqA { allow := false }
      (Or.inl rfl) rfl rfl⟩

end Pomerium
